import Mathlib

/-!
Verification development for the Noted CLI's commit-propagation core.

The JavaScript source is shallowly embedded: paths are lists of directory
components, the state of the external version-control engine is an explicit
`World`, each engine call is a state-passing function that also records the
invoked operation in a trace and may fail (git's non-zero exit becomes an
`Except.error` carrying the engine's message), and JavaScript `try`/`catch`
becomes `jsTry`.  Console output is modelled by the inductive `Line`, one
constructor per `console.log`/`console.error` site of the embedded code.
-/

/-- A filesystem path, as the list of its directory components below the
filesystem root (`[]` is the filesystem root `/`). -/
abbrev DirPath := List String

/-- A commit stored in a repository: its message and the set of paths
(relative to the repository root) whose changes it contains. -/
structure Commit where
  message : String
  paths : List DirPath
deriving DecidableEq

/-- Modelled from the spec: the state of one version-controlled working tree
as seen through the engine operations the code invokes (§6 External
Interfaces): local branches, the checked-out reference (`none` = detached
HEAD, reported as the sentinel `"HEAD"` by `rev-parse --abbrev-ref`),
working-tree changes not yet staged, the staged index entries, and the
commit history. -/
structure Repo where
  branches : List String
  head : Option String
  unstaged : List DirPath
  staged : List DirPath
  commits : List Commit
deriving DecidableEq

/-- Modelled from the spec: the on-disk state the engine queries — the
repositories by root path, the root of the repository containing a given
path (`rev-parse --show-toplevel`), and the raw outcome of the
superproject query (`rev-parse --show-superproject-working-tree`):
either the raw output string or a failure. -/
structure World where
  repos : List (DirPath × Repo)
  repoRootOf : DirPath → Option DirPath
  superQueryRaw : DirPath → Except Unit String

/-- One engine invocation, as recorded in the run trace. -/
inductive GitOp
  | revparseToplevel (p : DirPath)
  | revparseHead (root : DirPath)
  | checkout (root : DirPath) (b : String)
  | checkoutNew (root : DirPath) (b : String)
  | add (root : DirPath) (scope : DirPath)
  | commit (root : DirPath) (msg : String)
  | superQuery (p : DirPath)
  | addAt (p : DirPath)
  | commitAt (p : DirPath) (msg : String)
deriving DecidableEq

/-- One console line, one constructor per `console.log`/`console.error`
call site of the embedded functions (chalk colouring dropped). -/
inductive Line
  | checkedOut (b : String) (root : DirPath)
  | createdBranch (b : String) (root : DirPath)
  | stagedCurrent
  | committed (msg : String) (root : DirPath)
  | detectedSubmodule (parent : String)
  | stagedSubmodule (name : String)
  | committedSubmodule (name : String) (parent : String)
  | noParentNeeded
  | errorCommitting (emsg : String)
  | stagedAllHelper
deriving DecidableEq

/-- The running state of one CLI invocation: the world, the trace of engine
operations performed so far, and the console lines printed so far. -/
structure RunSt where
  w : World
  ops : List GitOp
  log : List Line

/-- A step of the embedded program: state in, state out, plus either a
normal value or a thrown error (the engine's error message). -/
abbrev M (α : Type) := RunSt → RunSt × Except String α

def pureM {α : Type} (a : α) : M α := fun s => (s, .ok a)

def mbind {α β : Type} (x : M α) (f : α → M β) : M β := fun s =>
  match x s with
  | (s', .ok a) => f a s'
  | (s', .error e) => (s', .error e)

/-- JavaScript `try`/`catch`: on a thrown error the handler runs from the
state reached so far (side effects before the throw are kept). -/
def jsTry {α : Type} (x : M α) (h : String → M α) : M α := fun s =>
  match x s with
  | (s', .ok a) => (s', .ok a)
  | (s', .error e) => h e s'

def recOp (o : GitOp) (s : RunSt) : RunSt := { s with ops := s.ops ++ [o] }

def emit (l : Line) : M Unit := fun s => ({ s with log := s.log ++ [l] }, .ok ())

/-- First-match association lookup of a repository by its root path. -/
def findRepo : List (DirPath × Repo) → DirPath → Option Repo
  | [], _ => none
  | (r, rep) :: rest, root => if r = root then some rep else findRepo rest root

/-- Replace the first entry for `root` (no-op when absent). -/
def setRepo : List (DirPath × Repo) → DirPath → Repo → List (DirPath × Repo)
  | [], _, _ => []
  | (r, rep) :: rest, root, rep' =>
    if r = root then (r, rep') :: rest else (r, rep) :: setRepo rest root rep'

def setW (s : RunSt) (root : DirPath) (r : Repo) : RunSt :=
  { s with w := { s.w with repos := setRepo s.w.repos root r } }

/-- `p` lies in the subtree rooted at `scope` (componentwise prefix). -/
def isUnder : DirPath → DirPath → Bool
  | [], _ => true
  | _ :: _, [] => false
  | s :: ss, q :: qs => s == q && isUnder ss qs

/-- `path.relative(root, p)` for `root` an ancestor of `p`; `[]` plays the
role of `"."` when the two coincide. -/
def relPath (root p : DirPath) : DirPath := p.drop root.length

/-- `path.basename` on a repository root. -/
def basename (root : DirPath) : String := root.getLastD ""

def isWsChar (c : Char) : Bool := c == ' ' || c == '\n' || c == '\t' || c == '\r'

def dropWs : List Char → List Char
  | [] => []
  | c :: cs => if isWsChar c then dropWs cs else c :: cs

/-- JavaScript `String.prototype.trim`: strip leading and trailing
whitespace. -/
def strTrim (s : String) : String := ⟨(dropWs (dropWs s.data.reverse).reverse)⟩

def splitSlashAux : List Char → List Char → List String
  | [], acc => [⟨acc.reverse⟩]
  | c :: cs, acc =>
    if c == '/' then ⟨acc.reverse⟩ :: splitSlashAux cs [] else splitSlashAux cs (c :: acc)

/-- Splitting an absolute path string (as printed by the superproject
query) back into components. -/
def parsePath (s : String) : DirPath := (splitSlashAux s.data []).filter (fun c => !(c == ""))

/-- Modelled from the spec: the engine's distinct failure when committing
with nothing staged (§3 Invariant, §6 "commit … failing distinctly when
nothing is staged"). -/
def nothingToCommitMsg : String := "nothing to commit, working tree clean"

def notRepoMsg : String := "fatal: not a git repository"

def branchMissingMsg : String := "error: branch not found"

def superFailMsg : String := "fatal: superproject query failed"

/-- Modelled from the spec: path-scoped staging (§6 "add (path-scoped
staging)") — the pending changes under `scope` move into the index. -/
def stageRepo (scope : DirPath) (r : Repo) : Repo :=
  { r with
    staged := r.staged ++ r.unstaged.filter (fun q => isUnder scope q),
    unstaged := r.unstaged.filter (fun q => !(isUnder scope q)) }

/-- Modelled from the spec: `commit` fails distinctly when nothing is
staged; otherwise the staged entries become a new commit and the index is
cleared (§6 External Interfaces). -/
def commitRepo (msg : String) (r : Repo) : Except String Repo :=
  if r.staged = [] then .error nothingToCommitMsg
  else .ok { r with commits := r.commits ++ [⟨msg, r.staged⟩], staged := [] }

/-- `git rev-parse --show-toplevel` from `p`. -/
def revparseToplevelM (p : DirPath) : M DirPath := fun s =>
  let s' := recOp (.revparseToplevel p) s
  match s'.w.repoRootOf p with
  | some root => (s', .ok root)
  | none => (s', .error notRepoMsg)

/-- `git rev-parse --abbrev-ref HEAD` at `root`: `none` stands for the
detached-state sentinel string `"HEAD"`. -/
def revparseHeadM (root : DirPath) : M (Option String) := fun s =>
  let s' := recOp (.revparseHead root) s
  match findRepo s'.w.repos root with
  | some r => (s', .ok r.head)
  | none => (s', .error notRepoMsg)

/-- `git checkout b` at `root`: fails when `b` is not a local branch. -/
def checkoutM (root : DirPath) (b : String) : M Unit := fun s =>
  let s' := recOp (.checkout root b) s
  match findRepo s'.w.repos root with
  | none => (s', .error notRepoMsg)
  | some r =>
    if b ∈ r.branches then (setW s' root { r with head := some b }, .ok ())
    else (s', .error branchMissingMsg)

/-- `git checkout -b b` at `root` (simple-git `checkoutLocalBranch`):
creates `b` at the current position and switches to it. -/
def checkoutNewM (root : DirPath) (b : String) : M Unit := fun s =>
  let s' := recOp (.checkoutNew root b) s
  match findRepo s'.w.repos root with
  | none => (s', .error notRepoMsg)
  | some r =>
    if b ∈ r.branches then (s', .error branchMissingMsg)
    else (setW s' root { r with branches := r.branches ++ [b], head := some b }, .ok ())

/-- `git add scope/.` issued against the repository rooted at `root`. -/
def addM (root scope : DirPath) : M Unit := fun s =>
  let s' := recOp (.add root scope) s
  match findRepo s'.w.repos root with
  | none => (s', .error notRepoMsg)
  | some r => (setW s' root (stageRepo scope r), .ok ())

/-- `git commit -m msg` issued against the repository rooted at `root`. -/
def commitM (root : DirPath) (msg : String) : M Unit := fun s =>
  let s' := recOp (.commit root msg) s
  match findRepo s'.w.repos root with
  | none => (s', .error notRepoMsg)
  | some r =>
    match commitRepo msg r with
    | .ok r' => (setW s' root r', .ok ())
    | .error e => (s', .error e)

/-- `git rev-parse --show-superproject-working-tree` from `p`: yields the
raw output string, or throws when the underlying query fails. -/
def superQueryM (p : DirPath) : M String := fun s =>
  let s' := recOp (.superQuery p) s
  match s'.w.superQueryRaw p with
  | .ok o => (s', .ok o)
  | .error _ => (s', .error superFailMsg)

/-- `git -C p add .`: stages the subtree of `p` inside the repository that
contains `p` (src/functions/commitHelper.js line 26 runs `add('.')` from
the directory it was handed, which need not be the repository root). -/
def addDotAtM (p : DirPath) : M Unit := fun s =>
  let s' := recOp (.addAt p) s
  match s'.w.repoRootOf p with
  | none => (s', .error notRepoMsg)
  | some root =>
    match findRepo s'.w.repos root with
    | none => (s', .error notRepoMsg)
    | some r => (setW s' root (stageRepo (relPath root p) r), .ok ())

/-- `git -C p commit -m msg`: commits the index of the repository that
contains `p`. -/
def commitAtM (p : DirPath) (msg : String) : M Unit := fun s =>
  let s' := recOp (.commitAt p msg) s
  match s'.w.repoRootOf p with
  | none => (s', .error notRepoMsg)
  | some root =>
    match findRepo s'.w.repos root with
    | none => (s', .error notRepoMsg)
    | some r =>
      match commitRepo msg r with
      | .ok r' => (setW s' root r', .ok ())
      | .error e => (s', .error e)

/-- Embedding of `isSubmodule` (src/unnamed/part_009 lines 6-17, identical
in src/functions/validations.js and src/functions/commitHelper.js): run the
superproject query; on non-empty trimmed output return it, otherwise —
including when the query itself fails — return `null`. -/
def isSubmodule (repoPath : DirPath) : M (Option String) :=
  jsTry
    (mbind (superQueryM repoPath) (fun r =>
      if strTrim r ≠ "" then pureM (some (strTrim r)) else pureM none))
    (fun _ => pureM none)

/-- The pure decision `isSubmodule` realises, as a function of the raw
query outcome: the trimmed output when the query succeeded with non-empty
output, `none` on empty output or query failure. -/
def superDecision : Except Unit String → Option String
  | .ok o => if strTrim o ≠ "" then some (strTrim o) else none
  | .error _ => none

/-- Derived superproject commit message of src/unnamed/part_009 line 67. -/
def submoduleMsg (name msg : String) : String :=
  "Update submodule: \"" ++ name ++ "\" - " ++ msg

/-- Derived superproject commit message of src/functions/commitHelper.js
line 51. -/
def helperSubmoduleMsg (name msg : String) : String :=
  "Update submodule: \"" ++ name ++ "\" to latest commit in workspace: \"" ++ msg ++ "\""

/-- src/unnamed/part_009 lines 27-39: if `rev-parse --abbrev-ref HEAD`
reports the detached sentinel, check out `branchName`, creating it fresh
when the checkout fails. -/
def ensureBranch (repoRoot : DirPath) (branchName : String) : M Unit :=
  mbind (revparseHeadM repoRoot) (fun cur =>
    match cur with
    | none =>
      jsTry
        (mbind (checkoutM repoRoot branchName) (fun _ =>
          emit (.checkedOut branchName repoRoot)))
        (fun _ =>
          mbind (checkoutNewM repoRoot branchName) (fun _ =>
            emit (.createdBranch branchName repoRoot)))
    | some _ => pureM ())

/-- src/unnamed/part_009 lines 52-71: query the superproject once; when
present, stage exactly the submodule's directory entry there and commit
with the derived message, else log that no parent update is needed. -/
def superPart (repoRoot : DirPath) (msg : String) : M Unit :=
  mbind (isSubmodule repoRoot) (fun parent? =>
    match parent? with
    | some parentStr =>
      mbind (emit (.detectedSubmodule parentStr)) (fun _ =>
        mbind (addM (parsePath parentStr) [basename repoRoot]) (fun _ =>
          mbind (emit (.stagedSubmodule (basename repoRoot))) (fun _ =>
            mbind (commitM (parsePath parentStr) (submoduleMsg (basename repoRoot) msg)) (fun _ =>
              emit (.committedSubmodule (basename repoRoot) parentStr)))))
    | none => emit .noParentNeeded)

/-- src/unnamed/part_009 lines 41-71: stage the relative subtree, commit,
then cascade to the superproject. -/
def afterBranch (repoRoot rel : DirPath) (msg : String) : M Unit :=
  mbind (addM repoRoot rel) (fun _ =>
    mbind (emit .stagedCurrent) (fun _ =>
      mbind (commitM repoRoot msg) (fun _ =>
        mbind (emit (.committed msg repoRoot)) (fun _ =>
          superPart repoRoot msg))))

/-- src/unnamed/part_009 lines 20-71, the body inside the `try`. -/
def commitChangesBody (currentPath : DirPath) (msg branchName : String) : M Unit :=
  mbind (revparseToplevelM currentPath) (fun repoRoot =>
    mbind (ensureBranch repoRoot branchName) (fun _ =>
      afterBranch repoRoot (relPath repoRoot currentPath) msg))

/-- Embedding of `commitChanges` (src/unnamed/part_009 lines 19-75), the
Change Propagator: the whole body runs inside one `try`, whose `catch`
prints the error message and resolves normally. -/
def commitChanges (currentPath : DirPath) (msg branchName : String) : M Unit :=
  jsTry (commitChangesBody currentPath msg branchName)
    (fun e => emit (.errorCommitting e))

/-- Embedding of `commitChanges` from src/functions/commitHelper.js lines
21-59 (the variant imported by the CLI commands): stages `.` from the
given path, commits, and — when a superproject is detected — stages the
superproject's whole working tree (`parentGit.add(parentRepoPath)`,
line 47) and commits there with its derived message. -/
def commitChangesHelper (repoPath : DirPath) (msg : String) : M Unit :=
  jsTry
    (mbind (addDotAtM repoPath) (fun _ =>
      mbind (emit .stagedAllHelper) (fun _ =>
        mbind (commitAtM repoPath msg) (fun _ =>
          mbind (emit (.committed msg repoPath)) (fun _ =>
            mbind (isSubmodule repoPath) (fun parent? =>
              match parent? with
              | some parentStr =>
                mbind (emit (.detectedSubmodule parentStr)) (fun _ =>
                  mbind (addM (parsePath parentStr) []) (fun _ =>
                    mbind (emit (.stagedSubmodule (basename repoPath))) (fun _ =>
                      mbind (commitAtM (parsePath parentStr)
                          (helperSubmoduleMsg (basename repoPath) msg)) (fun _ =>
                        emit (.committedSubmodule (basename repoPath) parentStr)))))
              | none => emit .noParentNeeded))))))
    (fun e => emit (.errorCommitting e))

/-- Embedding of `findWorkspaceRoot` (src/unnamed/part_006 lines 7-19):
walk upward while no `.git` entry exists; `null` once the filesystem root
is reached without a match.  `fsEx` is `fs.existsSync`. -/
def findWorkspaceRoot (fsEx : DirPath → Bool) (p : DirPath) : Option DirPath :=
  if fsEx (p ++ [".git"]) then some p
  else if h : p = [] then none
  else findWorkspaceRoot fsEx p.dropLast
termination_by p.length
decreasing_by
  rw [List.length_dropLast]
  have := List.length_pos.mpr h
  omega

/-- Embedding of `getWorkspaceRoot` (src/commands/nav.js lines 47-56):
same upward walk, but the root test `dir !== '/'` is made first. -/
def getWorkspaceRoot (fsEx : DirPath → Bool) (p : DirPath) : Option DirPath :=
  if h : p = [] then none
  else if fsEx (p ++ [".git"]) then some p
  else getWorkspaceRoot fsEx p.dropLast
termination_by p.length
decreasing_by
  rw [List.length_dropLast]
  have := List.length_pos.mpr h
  omega

def digitChar (d : Nat) : Char :=
  if d = 0 then '0' else if d = 1 then '1' else if d = 2 then '2'
  else if d = 3 then '3' else if d = 4 then '4' else if d = 5 then '5'
  else if d = 6 then '6' else if d = 7 then '7' else if d = 8 then '8'
  else if d = 9 then '9' else '*'

/-- Decimal digits of `n`, most significant first, by fuelled division
(the fuel `n+1` always suffices). -/
def natReprAux : Nat → Nat → List Char → List Char
  | 0, _, acc => acc
  | f + 1, n, acc =>
    if n < 10 then digitChar (n % 10) :: acc
    else natReprAux f (n / 10) (digitChar (n % 10) :: acc)

/-- The decimal rendering JavaScript template interpolation applies to the
loop counter. -/
def natRepr (n : Nat) : String := ⟨natReprAux (n + 1) n []⟩

/-- The k-th candidate name tried by the collision loop of
src/functions/getters.js lines 37-47 (and src/unnamed/part_001 lines
29-34): the base name itself first, then `base-1`, `base-2`, …. -/
def candName (base : String) : Nat → String
  | 0 => base
  | k + 1 => base ++ "-" ++ natRepr (k + 1)

/-- The `while (fs.existsSync(...))` loop, with explicit fuel (the
JavaScript loop is unbounded; `nextAvailableName` supplies fuel that is
provably sufficient for a finite set of existing names). -/
def nextNameAux (ex : String → Bool) (base : String) : Nat → Nat → String
  | 0, k => candName base k
  | f + 1, k =>
    if ex (candName base k) then nextNameAux ex base f (k + 1) else candName base k

/-- The pure name-collision routine of src/functions/getters.js lines
37-47: starting from `base`, append `-1`, `-2`, … until the name is not
among the existing ones. -/
def nextAvailableName (base : String) (exs : List String) : String :=
  nextNameAux (fun n => decide (n ∈ exs)) base (exs.length + 1) 0

/-- Initial run state for one CLI invocation against world `w`. -/
def initSt (w : World) : RunSt := ⟨w, [], []⟩

/-- The commit history of the repository rooted at `root`. -/
def commitsAt (w : World) (root : DirPath) : Option (List Commit) :=
  (findRepo w.repos root).map (·.commits)

/-- The checked-out reference of the repository rooted at `root`. -/
def headAt (w : World) (root : DirPath) : Option (Option String) :=
  (findRepo w.repos root).map (·.head)

/-- The local branches of the repository rooted at `root`. -/
def branchesAt (w : World) (root : DirPath) : Option (List String) :=
  (findRepo w.repos root).map (·.branches)

/-- The not-yet-staged working-tree changes of the repository at `root`. -/
def unstagedAt (w : World) (root : DirPath) : Option (List DirPath) :=
  (findRepo w.repos root).map (·.unstaged)

def isSuperQueryOp : GitOp → Bool
  | .superQuery _ => true
  | _ => false

def isCommitInvocation : GitOp → Bool
  | .commit _ _ => true
  | .commitAt _ _ => true
  | _ => false

/-- A world holding a single standalone repository rooted at `/r`
(the superproject query always fails there, as for a non-submodule). -/
def oneRepoWorld (r : Repo) : World :=
  ⟨[(["r"], r)],
   fun p => if isUnder ["r"] p then some ["r"] else none,
   fun _ => .error ()⟩

/-- A clean repository on branch `main`: nothing to stage anywhere. -/
def cleanRepo : Repo := ⟨["main"], some "main", [], [], []⟩

/-- A submodule world: repository `/P/S` (one pending change `f`) inside
superproject `/P`, whose working tree has the submodule entry `S` pending
and possibly further pending paths. -/
def wSubFam (childPend : List DirPath) (parentPend : List DirPath) : World :=
  ⟨[(["P", "S"], ⟨["main"], some "main", childPend, [], []⟩),
    (["P"], ⟨["main"], some "main", parentPend, [], []⟩)],
   fun p =>
     if isUnder ["P", "S"] p then some ["P", "S"]
     else if isUnder ["P"] p then some ["P"] else none,
   fun p => if p = ["P", "S"] then .ok "/P\n" else .error ()⟩

/-- The head and branch set of a repository — the projection preserved by
every operation of the Propagator that runs after the branch-ensuring
step. -/
def hbProj (r : Repo) : Option String × List String := (r.head, r.branches)

/-- `m` adds at most `k` operations matching `pred` to the trace. -/
def OpsBound (pred : GitOp → Bool) (k : Nat) {α : Type} (m : M α) : Prop :=
  ∀ s : RunSt, ((m s).1.ops.countP pred) ≤ s.ops.countP pred + k

/- ===================== theorems ===================== -/

theorem jsTry_emit_ok (x : M Unit) (f : String → Line) (s : RunSt) :
    ((jsTry x (fun e => emit (f e))) s).2 = .ok () := by
  unfold jsTry
  rcases h : x s with ⟨s', r⟩
  rcases r with e | a
  · rfl
  · cases a; rfl

/-- C10: whatever the input path, message and world, and whatever the
outcomes of the underlying version-control calls, `commitChanges` (both
the part_009 Propagator and the commitHelper.js variant) resolves
normally with the unit value: every internal failure is caught by the
surrounding `try`/`catch` and surfaced only as printed output, so the
caller receives no error value and cannot distinguish failure from
success by the returned result. -/
theorem commitChanges_never_rejects (p : DirPath) (m b : String) (s : RunSt) :
    ((commitChanges p m b) s).2 = .ok () ∧ ((commitChangesHelper p m) s).2 = .ok () :=
  ⟨jsTry_emit_ok (commitChangesBody p m b) Line.errorCommitting s,
   jsTry_emit_ok _ Line.errorCommitting s⟩

/-- C7: `isSubmodule` returns exactly the trimmed superproject path when
the underlying query succeeds with non-empty output, and `none` both on
empty output and on query failure; the call never escalates a query
failure (its result is always `.ok`), and it leaves the world
untouched. -/
theorem isSubmodule_never_escalates (root : DirPath) (s : RunSt) :
    ((isSubmodule root) s).2 = .ok (superDecision (s.w.superQueryRaw root)) ∧
    ((isSubmodule root) s).1.w = s.w := by
  unfold isSubmodule jsTry mbind superQueryM superDecision pureM
  rcases h : s.w.superQueryRaw root with e | o
  · simp [recOp, h]
  · simp only [recOp, h]
    by_cases ht : strTrim o = "" <;> simp [ht, recOp]

theorem root_walk_aux (fsEx : DirPath → Bool) :
    ∀ (n : Nat) (p : DirPath), p.length ≤ n →
      (∀ k : Nat, fsEx (p.take k ++ [".git"]) = false) →
      findWorkspaceRoot fsEx p = none ∧ getWorkspaceRoot fsEx p = none := by
  intro n
  induction n with
  | zero =>
    intro p hl hk
    have hp : p = [] := List.length_eq_zero.mp (Nat.le_zero.mp hl)
    subst hp
    have h0 := hk 0
    simp only [List.take, List.nil_append] at h0
    rw [findWorkspaceRoot, getWorkspaceRoot]
    simp [h0]
  | succ n ih =>
    intro p hl hk
    by_cases hp : p = []
    · subst hp
      have h0 := hk 0
      simp only [List.take, List.nil_append] at h0
      rw [findWorkspaceRoot, getWorkspaceRoot]
      simp [h0]
    · have hself : fsEx (p ++ [".git"]) = false := by
        have := hk p.length
        rwa [List.take_length] at this
      have hrec := ih p.dropLast
        (by
          rw [List.length_dropLast]
          have := List.length_pos.mpr hp
          omega)
        (by
          intro k
          rw [List.dropLast_eq_take, List.take_take]
          exact hk (min k (p.length - 1)))
      rw [findWorkspaceRoot, getWorkspaceRoot]
      simp [hself, hp, hrec.1, hrec.2]

/-- C8: on a starting path none of whose ancestors (including itself)
contains the `.git` metadata entry, both `findWorkspaceRoot`
(src/unnamed/part_006) and `getWorkspaceRoot` (src/commands/nav.js)
terminate at the filesystem root and return `none`; being total Lean
functions they cannot throw at all. -/
theorem root_finding_without_metadata_returns_none (fsEx : DirPath → Bool) (p : DirPath)
    (h : ∀ k : Nat, fsEx (p.take k ++ [".git"]) = false) :
    findWorkspaceRoot fsEx p = none ∧ getWorkspaceRoot fsEx p = none :=
  root_walk_aux fsEx p.length p le_rfl h

/-- C8 witness: a two-level directory in a world with no metadata at all. -/
theorem root_finding_without_metadata_returns_none_witness :
    findWorkspaceRoot (fun _ => false) ["a", "b"] = none ∧
    getWorkspaceRoot (fun _ => false) ["a", "b"] = none :=
  root_finding_without_metadata_returns_none (fun _ => false) ["a", "b"] (fun _ => rfl)

/-- C1 counterexample: on a clean standalone repository the staging step
produces no pending changes, yet the Propagator still invokes `commit`
there (the trace records the commit invocation), and its output is the
caught engine error — the code contains no nothing-to-commit report. -/
theorem clean_repo_commit_still_invoked :
    ((commitChanges ["r"] "m" "main") (initSt (oneRepoWorld cleanRepo))).1.ops.contains
        (.commit ["r"] "m") = true ∧
    ((commitChanges ["r"] "m" "main") (initSt (oneRepoWorld cleanRepo))).1.log
      = [.stagedCurrent, .errorCommitting nothingToCommitMsg] := by
  exact ⟨rfl, rfl⟩

/-- C1 (amended): when the staging step produces no pending changes, the
Propagator still invokes `commit`; the engine rejects the empty commit,
the failure is caught and reported as an error line, and the repository
is left completely unchanged — in particular no empty change set is ever
committed (the invariant holds because the engine rejects empty commits,
not because the code checks first). -/
theorem empty_stage_commit_fails_harmlessly (bs : List String) (br m b : String)
    (cs : List Commit) :
    ((commitChanges ["r"] m b) (initSt (oneRepoWorld ⟨bs, some br, [], [], cs⟩))).1.ops
      = [.revparseToplevel ["r"], .revparseHead ["r"], .add ["r"] [], .commit ["r"] m] ∧
    ((commitChanges ["r"] m b) (initSt (oneRepoWorld ⟨bs, some br, [], [], cs⟩))).1.log
      = [.stagedCurrent, .errorCommitting nothingToCommitMsg] ∧
    ((commitChanges ["r"] m b) (initSt (oneRepoWorld ⟨bs, some br, [], [], cs⟩))).1.w.repos
      = [(["r"], ⟨bs, some br, [], [], cs⟩)] :=
  ⟨rfl, rfl, rfl⟩

/-- C3 counterexample: in a submodule-with-superproject world, the second
of two back-to-back `commitChanges` calls does not report
`nothing-to-commit` — its commit attempt fails, the caught error is the
only report, and the superproject is never even queried on the second
call. -/
theorem second_call_error_not_nothing_to_commit :
    ((commitChanges ["P", "S"] "m" "main")
        (initSt ((commitChanges ["P", "S"] "m" "main")
          (initSt (wSubFam [["f"]] [["S"]]))).1.w)).1.log
      = [.stagedCurrent, .errorCommitting nothingToCommitMsg] ∧
    ((commitChanges ["P", "S"] "m" "main")
        (initSt ((commitChanges ["P", "S"] "m" "main")
          (initSt (wSubFam [["f"]] [["S"]]))).1.w)).1.ops.contains
        (.superQuery ["P", "S"]) = false := by
  exact ⟨rfl, rfl⟩

/-- C3 (amended): with no intervening filesystem change, the first call
commits in the target repository and in its superproject; the second
call stages nothing, its commit attempt fails with the engine's
nothing-to-commit error which is caught and printed (the code has no
`nothing-to-commit` outcome), it never reaches the superproject query,
and it changes no repository state at all. -/
theorem noop_second_call_creates_no_commits (m : String) (f : DirPath) :
    ((commitChanges ["P", "S"] m "main") (initSt (wSubFam [f] [["S"]]))).1.log
      = [.stagedCurrent, .committed m ["P", "S"], .detectedSubmodule "/P",
         .stagedSubmodule "S", .committedSubmodule "S" "/P"] ∧
    commitsAt ((commitChanges ["P", "S"] m "main") (initSt (wSubFam [f] [["S"]]))).1.w
        ["P", "S"] = some [⟨m, [f]⟩] ∧
    commitsAt ((commitChanges ["P", "S"] m "main") (initSt (wSubFam [f] [["S"]]))).1.w
        ["P"] = some [⟨submoduleMsg "S" m, [["S"]]⟩] ∧
    ((commitChanges ["P", "S"] m "main")
        (initSt ((commitChanges ["P", "S"] m "main")
          (initSt (wSubFam [f] [["S"]]))).1.w)).1.log
      = [.stagedCurrent, .errorCommitting nothingToCommitMsg] ∧
    ((commitChanges ["P", "S"] m "main")
        (initSt ((commitChanges ["P", "S"] m "main")
          (initSt (wSubFam [f] [["S"]]))).1.w)).1.ops
      = [.revparseToplevel ["P", "S"], .revparseHead ["P", "S"],
         .add ["P", "S"] [], .commit ["P", "S"] m] ∧
    ((commitChanges ["P", "S"] m "main")
        (initSt ((commitChanges ["P", "S"] m "main")
          (initSt (wSubFam [f] [["S"]]))).1.w)).1.w.repos
      = ((commitChanges ["P", "S"] m "main") (initSt (wSubFam [f] [["S"]]))).1.w.repos :=
  ⟨rfl, rfl, rfl, rfl, rfl, rfl⟩

/-- C2 counterexample: the commitHelper.js variant stages the
superproject's entire working tree (`parentGit.add(parentRepoPath)`), so
an unrelated pending change `junk` in the superproject is committed
along with the submodule entry, and the staging operation recorded has
scope `[]` (the whole tree), not the submodule directory. -/
theorem helper_commits_unrelated_parent_changes :
    commitsAt ((commitChangesHelper ["P", "S"] "m")
        (initSt (wSubFam [["f"]] [["junk"], ["S"]]))).1.w ["P"]
      = some [⟨helperSubmoduleMsg "S" "m", [["junk"], ["S"]]⟩] ∧
    ((commitChangesHelper ["P", "S"] "m")
        (initSt (wSubFam [["f"]] [["junk"], ["S"]]))).1.ops.contains
        (.add ["P"] []) = true := by
  exact ⟨rfl, rfl⟩

/-- C2 (amended): the part_009 Propagator stages in the superproject only
the entry for the submodule directory (named `basename(repoRoot)`) and
commits it with the derived message, leaving any unrelated pending change
in the superproject's working tree unstaged; the commitHelper.js variant
instead stages the superproject's entire working tree (see the
counterexample). -/
theorem part009_stages_only_submodule_entry (junk : DirPath) (m : String)
    (hj : isUnder ["S"] junk = false) :
    commitsAt ((commitChanges ["P", "S"] m "main")
        (initSt (wSubFam [["f"]] [junk, ["S"]]))).1.w ["P"]
      = some [⟨submoduleMsg "S" m, [["S"]]⟩] ∧
    unstagedAt ((commitChanges ["P", "S"] m "main")
        (initSt (wSubFam [["f"]] [junk, ["S"]]))).1.w ["P"]
      = some [junk] ∧
    commitsAt ((commitChanges ["P", "S"] m "main")
        (initSt (wSubFam [["f"]] [junk, ["S"]]))).1.w ["P", "S"]
      = some [⟨m, [["f"]]⟩] := by
  refine ⟨?_, ?_, ?_⟩ <;>
  simp [commitChanges, commitChangesBody, ensureBranch, afterBranch, superPart,
    isSubmodule, jsTry, mbind, pureM, emit, recOp, revparseToplevelM, revparseHeadM,
    addM, commitM, superQueryM, setW, findRepo, setRepo, stageRepo, commitRepo,
    relPath, parsePath, basename, strTrim, dropWs, splitSlashAux, isUnder,
    wSubFam, initSt, commitsAt, unstagedAt, List.filter, hj, isWsChar]

/-- C2 witness: a concrete unrelated pending path in the superproject. -/
theorem part009_stages_only_submodule_entry_witness :
    commitsAt ((commitChanges ["P", "S"] "m" "main")
        (initSt (wSubFam [["f"]] [["junk"], ["S"]]))).1.w ["P"]
      = some [⟨submoduleMsg "S" "m", [["S"]]⟩] :=
  (part009_stages_only_submodule_entry ["junk"] "m" (by decide)).1

/-- C4: calling the Propagator on subdirectory `A` of a repository stages
and commits only the subtree of `A` relative to the repository root (and
that relative path is `[]`, i.e. `"."`, when the target equals the
root): the new commit contains exactly the change under `A`, while an
unrelated pending change `fB` elsewhere in the same working tree is left
uncommitted. -/
theorem scoped_staging_leaves_unrelated_changes (fB : DirPath) (m : String)
    (hB : isUnder ["A"] fB = false) :
    commitsAt ((commitChanges ["r", "A"] m "main")
        (initSt (oneRepoWorld ⟨["main"], some "main", [["A", "x"], fB], [], []⟩))).1.w ["r"]
      = some [⟨m, [["A", "x"]]⟩] ∧
    unstagedAt ((commitChanges ["r", "A"] m "main")
        (initSt (oneRepoWorld ⟨["main"], some "main", [["A", "x"], fB], [], []⟩))).1.w ["r"]
      = some [fB] ∧
    relPath ["r"] ["r", "A"] = ["A"] ∧ relPath ["r"] ["r"] = [] := by
  refine ⟨?_, ?_, rfl, rfl⟩ <;>
  simp [commitChanges, commitChangesBody, ensureBranch, afterBranch, superPart,
    isSubmodule, jsTry, mbind, pureM, emit, recOp, revparseToplevelM, revparseHeadM,
    addM, commitM, superQueryM, setW, findRepo, setRepo, stageRepo, commitRepo,
    relPath, parsePath, basename, strTrim, dropWs, splitSlashAux, isUnder,
    oneRepoWorld, initSt, commitsAt, unstagedAt, List.filter, hB, isWsChar]

/-- C4 witness: a concrete unrelated pending path under `B`. -/
theorem scoped_staging_leaves_unrelated_changes_witness :
    commitsAt ((commitChanges ["r", "A"] "m" "main")
        (initSt (oneRepoWorld ⟨["main"], some "main", [["A", "x"], ["B", "y"]], [], []⟩))).1.w ["r"]
      = some [⟨"m", [["A", "x"]]⟩] :=
  (scoped_staging_leaves_unrelated_changes ["B", "y"] "m" (by decide)).1

theorem findRepo_setRepo (l : List (DirPath × Repo)) (root : DirPath) (r' : Repo)
    (q : DirPath) :
    findRepo (setRepo l root r') q =
      if q = root ∧ (findRepo l root).isSome then some r' else findRepo l q := by
  induction l with
  | nil => simp [setRepo, findRepo]
  | cons hd tl ih =>
    obtain ⟨a, rep⟩ := hd
    by_cases ha : a = root
    · subst ha
      by_cases hq : q = a
      · subst hq
        simp [setRepo, findRepo]
      · have hq2 : ¬ (a = q) := fun hh => hq hh.symm
        simp [setRepo, findRepo, hq, hq2]
    · by_cases haq : a = q
      · subst haq
        simp [setRepo, findRepo, ha]
      · simp [setRepo, findRepo, ha, haq, ih]

theorem hb_pureM {α : Type} (a : α) :
    ∀ (s : RunSt) (q : DirPath),
      (findRepo (((pureM a) s).1.w.repos) q).map hbProj = (findRepo s.w.repos q).map hbProj :=
  fun _ _ => rfl

theorem hb_emit (l : Line) :
    ∀ (s : RunSt) (q : DirPath),
      (findRepo (((emit l) s).1.w.repos) q).map hbProj = (findRepo s.w.repos q).map hbProj :=
  fun _ _ => rfl

theorem hb_mbind {α β : Type} {x : M α} {g : α → M β}
    (hx : ∀ s q, (findRepo ((x s).1.w.repos) q).map hbProj = (findRepo s.w.repos q).map hbProj)
    (hg : ∀ a s q, (findRepo (((g a) s).1.w.repos) q).map hbProj = (findRepo s.w.repos q).map hbProj) :
    ∀ s q, (findRepo (((mbind x g) s).1.w.repos) q).map hbProj = (findRepo s.w.repos q).map hbProj := by
  intro s q
  unfold mbind
  rcases hxs : x s with ⟨s', r⟩
  have hx' := hx s q
  rw [hxs] at hx'
  rcases r with e | a
  · exact hx'
  · exact (hg a s' q).trans hx'

theorem hb_jsTry {α : Type} {x : M α} {g : String → M α}
    (hx : ∀ s q, (findRepo ((x s).1.w.repos) q).map hbProj = (findRepo s.w.repos q).map hbProj)
    (hg : ∀ e s q, (findRepo (((g e) s).1.w.repos) q).map hbProj = (findRepo s.w.repos q).map hbProj) :
    ∀ s q, (findRepo (((jsTry x g) s).1.w.repos) q).map hbProj = (findRepo s.w.repos q).map hbProj := by
  intro s q
  unfold jsTry
  rcases hxs : x s with ⟨s', r⟩
  have hx' := hx s q
  rw [hxs] at hx'
  rcases r with e | a
  · exact (hg e s' q).trans hx'
  · exact hx'

theorem hb_addM (root scope : DirPath) :
    ∀ s q, (findRepo (((addM root scope) s).1.w.repos) q).map hbProj
      = (findRepo s.w.repos q).map hbProj := by
  intro s q
  unfold addM
  cases hf : findRepo s.w.repos root with
  | none => simp [recOp, hf]
  | some r =>
    simp only [recOp, hf, setW]
    rw [findRepo_setRepo]
    by_cases hq : q = root
    · subst hq
      simp [hf, stageRepo, hbProj]
    · simp [hq]

theorem hb_commitM (root : DirPath) (msg : String) :
    ∀ s q, (findRepo (((commitM root msg) s).1.w.repos) q).map hbProj
      = (findRepo s.w.repos q).map hbProj := by
  intro s q
  unfold commitM
  cases hf : findRepo s.w.repos root with
  | none => simp [recOp, hf]
  | some r =>
    simp only [recOp, hf]
    unfold commitRepo
    by_cases hs : r.staged = []
    · simp [hs]
    · rw [if_neg hs]
      dsimp only [setW]
      rw [findRepo_setRepo]
      by_cases hq : q = root
      · subst hq
        simp [hf, hbProj]
      · simp [hq]

theorem hb_superQueryM (p : DirPath) :
    ∀ s q, (findRepo (((superQueryM p) s).1.w.repos) q).map hbProj
      = (findRepo s.w.repos q).map hbProj := by
  intro s q
  unfold superQueryM
  cases hf : s.w.superQueryRaw p <;> simp [recOp, hf]

theorem hb_isSubmodule (p : DirPath) :
    ∀ s q, (findRepo (((isSubmodule p) s).1.w.repos) q).map hbProj
      = (findRepo s.w.repos q).map hbProj := by
  unfold isSubmodule
  refine hb_jsTry (hb_mbind (hb_superQueryM p) ?_) (fun e => hb_pureM none)
  intro a
  by_cases ht : strTrim a ≠ "" <;> simp [ht] <;> exact fun s q => rfl

theorem hb_superPart (root : DirPath) (msg : String) :
    ∀ s q, (findRepo (((superPart root msg) s).1.w.repos) q).map hbProj
      = (findRepo s.w.repos q).map hbProj := by
  unfold superPart
  refine hb_mbind (hb_isSubmodule root) ?_
  intro a
  cases a with
  | none => exact hb_emit _
  | some parentStr =>
    exact hb_mbind (hb_emit _) (fun _ =>
      hb_mbind (hb_addM _ _) (fun _ =>
        hb_mbind (hb_emit _) (fun _ =>
          hb_mbind (hb_commitM _ _) (fun _ => hb_emit _))))

theorem hb_afterBranch (root rel : DirPath) (msg : String) :
    ∀ s q, (findRepo (((afterBranch root rel msg) s).1.w.repos) q).map hbProj
      = (findRepo s.w.repos q).map hbProj := by
  unfold afterBranch
  exact hb_mbind (hb_addM _ _) (fun _ =>
    hb_mbind (hb_emit _) (fun _ =>
      hb_mbind (hb_commitM _ _) (fun _ =>
        hb_mbind (hb_emit _) (fun _ => hb_superPart _ _))))

theorem hb_mbind_left {α β : Type} {x : M α} {g : α → M β}
    (hg : ∀ a s q, (findRepo (((g a) s).1.w.repos) q).map hbProj = (findRepo s.w.repos q).map hbProj) :
    ∀ s q, (findRepo (((mbind x g) s).1.w.repos) q).map hbProj
      = (findRepo ((x s).1.w.repos) q).map hbProj := by
  intro s q
  unfold mbind
  rcases hxs : x s with ⟨s', r⟩
  rcases r with e | a
  · rfl
  · exact hg a s' q

theorem hb_jsTry_left {α : Type} {x : M α} {g : String → M α}
    (hg : ∀ e s q, (findRepo (((g e) s).1.w.repos) q).map hbProj = (findRepo s.w.repos q).map hbProj) :
    ∀ s q, (findRepo (((jsTry x g) s).1.w.repos) q).map hbProj
      = (findRepo ((x s).1.w.repos) q).map hbProj := by
  intro s q
  unfold jsTry
  rcases hxs : x s with ⟨s', r⟩
  rcases r with e | a
  · exact hg e s' q
  · rfl

theorem headAt_eq_proj (w : World) (q : DirPath) :
    headAt w q = ((findRepo w.repos q).map hbProj).map Prod.fst := by
  unfold headAt hbProj
  cases h : findRepo w.repos q <;> simp

theorem branchesAt_eq_proj (w : World) (q : DirPath) :
    branchesAt w q = ((findRepo w.repos q).map hbProj).map Prod.snd := by
  unfold branchesAt hbProj
  cases h : findRepo w.repos q <;> simp

theorem ensureBranch_spec (root : DirPath) (b : String) (s : RunSt) (repo : Repo)
    (h2 : findRepo s.w.repos root = some repo) :
    ((ensureBranch root b) s).2 = .ok () ∧
    (findRepo ((ensureBranch root b) s).1.w.repos root).map hbProj
      = some (some (repo.head.getD b),
          if repo.head = none ∧ ¬ (b ∈ repo.branches) then repo.branches ++ [b]
          else repo.branches) ∧
    (∀ q, ¬ (q = root) →
      (findRepo ((ensureBranch root b) s).1.w.repos q).map hbProj
        = (findRepo s.w.repos q).map hbProj) := by
  rcases hh : repo.head with _ | br
  · by_cases hb : b ∈ repo.branches
    · refine ⟨?_, ?_, fun q hq => ?_⟩
      · simp [ensureBranch, mbind, jsTry, revparseHeadM, checkoutM, pureM, emit,
          recOp, setW, h2, hh, hb, findRepo_setRepo, hbProj]
      · simp [ensureBranch, mbind, jsTry, revparseHeadM, checkoutM, pureM, emit,
          recOp, setW, h2, hh, hb, findRepo_setRepo, hbProj]
      · simp [ensureBranch, mbind, jsTry, revparseHeadM, checkoutM, pureM, emit,
          recOp, setW, h2, hh, hb, findRepo_setRepo, hbProj, hq]
    · refine ⟨?_, ?_, fun q hq => ?_⟩
      · simp [ensureBranch, mbind, jsTry, revparseHeadM, checkoutM, checkoutNewM, pureM, emit,
          recOp, setW, h2, hh, hb, findRepo_setRepo, hbProj]
      · simp [ensureBranch, mbind, jsTry, revparseHeadM, checkoutM, checkoutNewM, pureM, emit,
          recOp, setW, h2, hh, hb, findRepo_setRepo, hbProj]
      · simp [ensureBranch, mbind, jsTry, revparseHeadM, checkoutM, checkoutNewM, pureM, emit,
          recOp, setW, h2, hh, hb, findRepo_setRepo, hbProj, hq]
  · refine ⟨?_, ?_, fun q hq => ?_⟩
    · simp [ensureBranch, mbind, revparseHeadM, pureM, recOp, h2, hh, hbProj]
    · simp [ensureBranch, mbind, revparseHeadM, pureM, recOp, h2, hh, hbProj]
    · simp [ensureBranch, mbind, revparseHeadM, pureM, recOp, h2, hh, hbProj]

/-- C5: whenever the target path resolves to a repository, the Propagator
leaves that repository checked out on `repo.head.getD b` — the branch it
was already on when one was named, and the supplied branch `b` when it
was detached; in the detached case `b` is afterwards among the local
branches whether or not it existed before (checked out if present,
created fresh otherwise), and nothing later in the run moves the head
again. -/
theorem detached_head_recovery (w : World) (p : DirPath) (m b : String)
    (root : DirPath) (repo : Repo)
    (h1 : w.repoRootOf p = some root) (h2 : findRepo w.repos root = some repo) :
    headAt (((commitChanges p m b) (initSt w)).1).w root
      = some (some (repo.head.getD b)) ∧
    (repo.head = none →
      ∃ bs, branchesAt (((commitChanges p m b) (initSt w)).1).w root = some bs ∧ b ∈ bs) := by
  have hstep1 : ∀ q, (findRepo (((commitChanges p m b) (initSt w)).1.w.repos) q).map hbProj
      = (findRepo (((commitChangesBody p m b) (initSt w)).1.w.repos) q).map hbProj := by
    intro q
    exact hb_jsTry_left (fun e => hb_emit (.errorCommitting e)) (initSt w) q
  have hrev : revparseToplevelM p (initSt w)
      = ({ w := w, ops := [GitOp.revparseToplevel p], log := [] }, .ok root) := by
    simp [revparseToplevelM, initSt, recOp, h1]
  have hbody : commitChangesBody p m b (initSt w)
      = (mbind (ensureBranch root b) (fun _ => afterBranch root (relPath root p) m))
          ({ w := w, ops := [GitOp.revparseToplevel p], log := [] }) := by
    unfold commitChangesBody mbind
    rw [hrev]
  have h2s1 : findRepo ({ w := w, ops := [GitOp.revparseToplevel p], log := [] } : RunSt).w.repos root
      = some repo := h2
  obtain ⟨hok, hroot, hother⟩ := ensureBranch_spec root b
    ({ w := w, ops := [GitOp.revparseToplevel p], log := [] }) repo h2s1
  have hstep3 : ∀ q, (findRepo (((commitChangesBody p m b) (initSt w)).1.w.repos) q).map hbProj
      = (findRepo (((ensureBranch root b)
          ({ w := w, ops := [GitOp.revparseToplevel p], log := [] })).1.w.repos) q).map hbProj := by
    intro q
    rw [hbody]
    exact hb_mbind_left (fun a s q => hb_afterBranch root (relPath root p) m s q) _ q
  have hfinal : (findRepo (((commitChanges p m b) (initSt w)).1.w.repos) root).map hbProj
      = some (some (repo.head.getD b),
          if repo.head = none ∧ ¬ (b ∈ repo.branches) then repo.branches ++ [b]
          else repo.branches) := by
    rw [hstep1, hstep3]
    exact hroot
  constructor
  · rw [headAt_eq_proj, hfinal]
    rfl
  · intro hhn
    rw [branchesAt_eq_proj, hfinal]
    by_cases hb : b ∈ repo.branches
    · exact ⟨repo.branches, by simp [hhn, hb], hb⟩
    · exact ⟨repo.branches ++ [b], by simp [hhn, hb], by simp⟩

/-- C5 witness: a detached repository with no branches at all ends on a
freshly created `main`. -/
theorem detached_head_recovery_witness :
    headAt (((commitChanges ["r"] "m" "main")
        (initSt (oneRepoWorld ⟨[], none, [], [], []⟩))).1).w ["r"]
      = some (some "main") :=
  (detached_head_recovery (oneRepoWorld ⟨[], none, [], [], []⟩) ["r"] "m" "main" ["r"]
    ⟨[], none, [], [], []⟩ rfl rfl).1

theorem opsBound_pureM {α : Type} (pred : GitOp → Bool) (a : α) :
    OpsBound pred 0 (pureM a) := by
  intro s
  simp [pureM]

theorem opsBound_emit (pred : GitOp → Bool) (l : Line) :
    OpsBound pred 0 (emit l) := by
  intro s
  simp [emit]

theorem opsBound_mono {α : Type} {pred : GitOp → Bool} {k k' : Nat} {m : M α}
    (h : OpsBound pred k m) (hk : k ≤ k') : OpsBound pred k' m := by
  intro s
  have := h s
  omega

theorem opsBound_mbind {α β : Type} {pred : GitOp → Bool} {k1 k2 : Nat}
    {x : M α} {g : α → M β}
    (hx : OpsBound pred k1 x) (hg : ∀ a, OpsBound pred k2 (g a)) :
    OpsBound pred (k1 + k2) (mbind x g) := by
  intro s
  unfold mbind
  rcases hxs : x s with ⟨s', r⟩
  have hx' := hx s
  rw [hxs] at hx'
  rcases r with e | a
  · dsimp only at hx' ⊢
    omega
  · have hg' := hg a s'
    dsimp only at hx' ⊢
    omega

theorem opsBound_jsTry {α : Type} {pred : GitOp → Bool} {k1 k2 : Nat}
    {x : M α} {g : String → M α}
    (hx : OpsBound pred k1 x) (hg : ∀ e, OpsBound pred k2 (g e)) :
    OpsBound pred (k1 + k2) (jsTry x g) := by
  intro s
  unfold jsTry
  rcases hxs : x s with ⟨s', r⟩
  have hx' := hx s
  rw [hxs] at hx'
  rcases r with e | a
  · have hg' := hg e s'
    dsimp only at hx' ⊢
    omega
  · dsimp only at hx' ⊢
    omega

theorem ops_of_revparseToplevelM (p : DirPath) :
    ∀ s, ((revparseToplevelM p) s).1.ops = s.ops ++ [.revparseToplevel p] := by
  intro s
  unfold revparseToplevelM
  cases h : s.w.repoRootOf p <;> simp [recOp, h]

theorem ops_of_revparseHeadM (root : DirPath) :
    ∀ s, ((revparseHeadM root) s).1.ops = s.ops ++ [.revparseHead root] := by
  intro s
  unfold revparseHeadM
  cases h : findRepo s.w.repos root <;> simp [recOp, h]

theorem ops_of_checkoutM (root : DirPath) (b : String) :
    ∀ s, ((checkoutM root b) s).1.ops = s.ops ++ [.checkout root b] := by
  intro s
  unfold checkoutM
  cases h : findRepo s.w.repos root with
  | none => simp [recOp, h]
  | some r =>
    by_cases hb : b ∈ r.branches <;> simp [recOp, h, hb, setW]

theorem ops_of_checkoutNewM (root : DirPath) (b : String) :
    ∀ s, ((checkoutNewM root b) s).1.ops = s.ops ++ [.checkoutNew root b] := by
  intro s
  unfold checkoutNewM
  cases h : findRepo s.w.repos root with
  | none => simp [recOp, h]
  | some r =>
    by_cases hb : b ∈ r.branches <;> simp [recOp, h, hb, setW]

theorem ops_of_addM (root scope : DirPath) :
    ∀ s, ((addM root scope) s).1.ops = s.ops ++ [.add root scope] := by
  intro s
  unfold addM
  cases h : findRepo s.w.repos root <;> simp [recOp, h, setW]

theorem ops_of_commitM (root : DirPath) (msg : String) :
    ∀ s, ((commitM root msg) s).1.ops = s.ops ++ [.commit root msg] := by
  intro s
  unfold commitM
  cases h : findRepo s.w.repos root with
  | none => simp [recOp, h]
  | some r =>
    cases hc : commitRepo msg r <;> simp [recOp, h, hc, setW]

theorem ops_of_superQueryM (p : DirPath) :
    ∀ s, ((superQueryM p) s).1.ops = s.ops ++ [.superQuery p] := by
  intro s
  unfold superQueryM
  cases h : s.w.superQueryRaw p <;> simp [recOp, h]

theorem opsBound_of_opsEq {α : Type} {m : M α} {o : GitOp}
    (h : ∀ s, ((m) s).1.ops = s.ops ++ [o]) (pred : GitOp → Bool) :
    OpsBound pred (if pred o then 1 else 0) m := by
  intro s
  rw [h s]
  simp only [List.countP_append, List.countP_cons, List.countP_nil]
  split <;> omega

theorem opsBound0 {α : Type} {m : M α} {o : GitOp}
    (hops : ∀ s, ((m) s).1.ops = s.ops ++ [o]) {pred : GitOp → Bool}
    (h : pred o = false) : OpsBound pred 0 m := by
  have hx := opsBound_of_opsEq hops pred
  rwa [h] at hx

theorem opsBound1 {α : Type} {m : M α} {o : GitOp}
    (hops : ∀ s, ((m) s).1.ops = s.ops ++ [o]) (pred : GitOp → Bool) :
    OpsBound pred 1 m :=
  opsBound_mono (opsBound_of_opsEq hops pred) (by split <;> omega)

theorem sqBound_ensureBranch (root : DirPath) (b : String) :
    OpsBound isSuperQueryOp 0 (ensureBranch root b) := by
  unfold ensureBranch
  have hrh : OpsBound isSuperQueryOp 0 (revparseHeadM root) :=
    opsBound0 (ops_of_revparseHeadM root) rfl
  have hco : OpsBound isSuperQueryOp 0 (checkoutM root b) :=
    opsBound0 (ops_of_checkoutM root b) rfl
  have hcn : OpsBound isSuperQueryOp 0 (checkoutNewM root b) :=
    opsBound0 (ops_of_checkoutNewM root b) rfl
  have hg : ∀ cur : Option String,
      OpsBound isSuperQueryOp 0
        (match cur with
         | none =>
           jsTry (mbind (checkoutM root b) (fun _ => emit (.checkedOut b root)))
             (fun _ => mbind (checkoutNewM root b) (fun _ => emit (.createdBranch b root)))
         | some _ => pureM ()) := by
    intro cur
    cases cur with
    | none =>
      have hx : OpsBound isSuperQueryOp 0
          (mbind (checkoutM root b) (fun _ => emit (.checkedOut b root))) :=
        opsBound_mono (opsBound_mbind hco (fun _ => opsBound_emit _ _)) (by omega)
      have hy : ∀ e : String, OpsBound isSuperQueryOp 0
          (mbind (checkoutNewM root b) (fun _ => emit (.createdBranch b root))) :=
        fun _ => opsBound_mono (opsBound_mbind hcn (fun _ => opsBound_emit _ _)) (by omega)
      exact opsBound_mono (opsBound_jsTry hx hy) (by omega)
    | some br => exact opsBound_pureM _ _
  exact opsBound_mono (opsBound_mbind hrh hg) (by omega)

theorem sqBound_isSubmodule (root : DirPath) :
    OpsBound isSuperQueryOp 1 (isSubmodule root) := by
  unfold isSubmodule
  have hsq : OpsBound isSuperQueryOp 1 (superQueryM root) :=
    opsBound1 (ops_of_superQueryM root) _
  have hif : ∀ r : String, OpsBound isSuperQueryOp 0
      (if strTrim r ≠ "" then pureM (some (strTrim r)) else pureM none) := by
    intro r
    by_cases ht : strTrim r ≠ ""
    · rw [if_pos ht]; exact opsBound_pureM _ _
    · rw [if_neg ht]; exact opsBound_pureM _ _
  have hx : OpsBound isSuperQueryOp 1
      (mbind (superQueryM root)
        (fun r => if strTrim r ≠ "" then pureM (some (strTrim r)) else pureM none)) :=
    opsBound_mono (opsBound_mbind hsq hif) (by omega)
  have hy : ∀ e : String, OpsBound isSuperQueryOp 0 (pureM (none : Option String)) :=
    fun _ => opsBound_pureM _ _
  exact opsBound_mono (opsBound_jsTry hx hy) (by omega)

theorem cmBound_isSubmodule (root : DirPath) :
    OpsBound isCommitInvocation 0 (isSubmodule root) := by
  unfold isSubmodule
  have hsq : OpsBound isCommitInvocation 0 (superQueryM root) :=
    opsBound0 (ops_of_superQueryM root) rfl
  have hif : ∀ r : String, OpsBound isCommitInvocation 0
      (if strTrim r ≠ "" then pureM (some (strTrim r)) else pureM none) := by
    intro r
    by_cases ht : strTrim r ≠ ""
    · rw [if_pos ht]; exact opsBound_pureM _ _
    · rw [if_neg ht]; exact opsBound_pureM _ _
  have hx : OpsBound isCommitInvocation 0
      (mbind (superQueryM root)
        (fun r => if strTrim r ≠ "" then pureM (some (strTrim r)) else pureM none)) :=
    opsBound_mono (opsBound_mbind hsq hif) (by omega)
  have hy : ∀ e : String, OpsBound isCommitInvocation 0 (pureM (none : Option String)) :=
    fun _ => opsBound_pureM _ _
  exact opsBound_mono (opsBound_jsTry hx hy) (by omega)

theorem sqBound_superPart (root : DirPath) (msg : String) :
    OpsBound isSuperQueryOp 1 (superPart root msg) := by
  unfold superPart
  have hg : ∀ parent? : Option String,
      OpsBound isSuperQueryOp 0
        (match parent? with
         | some parentStr =>
           mbind (emit (.detectedSubmodule parentStr)) (fun _ =>
             mbind (addM (parsePath parentStr) [basename root]) (fun _ =>
               mbind (emit (.stagedSubmodule (basename root))) (fun _ =>
                 mbind (commitM (parsePath parentStr) (submoduleMsg (basename root) msg)) (fun _ =>
                   emit (.committedSubmodule (basename root) parentStr)))))
         | none => emit .noParentNeeded) := by
    intro parent?
    cases parent? with
    | none => exact opsBound_emit _ _
    | some parentStr =>
      have hadd : OpsBound isSuperQueryOp 0 (addM (parsePath parentStr) [basename root]) :=
        opsBound0 (ops_of_addM _ _) rfl
      have hcm : OpsBound isSuperQueryOp 0
          (commitM (parsePath parentStr) (submoduleMsg (basename root) msg)) :=
        opsBound0 (ops_of_commitM _ _) rfl
      have h4 : OpsBound isSuperQueryOp 0
          (mbind (commitM (parsePath parentStr) (submoduleMsg (basename root) msg)) (fun _ =>
            emit (.committedSubmodule (basename root) parentStr))) :=
        opsBound_mono (opsBound_mbind hcm (fun _ => opsBound_emit _ _)) (by omega)
      have h3 : OpsBound isSuperQueryOp 0
          (mbind (emit (.stagedSubmodule (basename root))) (fun _ =>
            mbind (commitM (parsePath parentStr) (submoduleMsg (basename root) msg)) (fun _ =>
              emit (.committedSubmodule (basename root) parentStr)))) :=
        opsBound_mono (opsBound_mbind (opsBound_emit _ _) (fun _ => h4)) (by omega)
      have h2 : OpsBound isSuperQueryOp 0
          (mbind (addM (parsePath parentStr) [basename root]) (fun _ =>
            mbind (emit (.stagedSubmodule (basename root))) (fun _ =>
              mbind (commitM (parsePath parentStr) (submoduleMsg (basename root) msg)) (fun _ =>
                emit (.committedSubmodule (basename root) parentStr))))) :=
        opsBound_mono (opsBound_mbind hadd (fun _ => h3)) (by omega)
      exact opsBound_mono (opsBound_mbind (opsBound_emit _ _) (fun _ => h2)) (by omega)
  exact opsBound_mono (opsBound_mbind (sqBound_isSubmodule root) hg) (by omega)

theorem cmBound_superPart (root : DirPath) (msg : String) :
    OpsBound isCommitInvocation 1 (superPart root msg) := by
  unfold superPart
  have hg : ∀ parent? : Option String,
      OpsBound isCommitInvocation 1
        (match parent? with
         | some parentStr =>
           mbind (emit (.detectedSubmodule parentStr)) (fun _ =>
             mbind (addM (parsePath parentStr) [basename root]) (fun _ =>
               mbind (emit (.stagedSubmodule (basename root))) (fun _ =>
                 mbind (commitM (parsePath parentStr) (submoduleMsg (basename root) msg)) (fun _ =>
                   emit (.committedSubmodule (basename root) parentStr)))))
         | none => emit .noParentNeeded) := by
    intro parent?
    cases parent? with
    | none => exact opsBound_mono (opsBound_emit _ _) (by omega)
    | some parentStr =>
      have hadd : OpsBound isCommitInvocation 0 (addM (parsePath parentStr) [basename root]) :=
        opsBound0 (ops_of_addM _ _) rfl
      have hcm : OpsBound isCommitInvocation 1
          (commitM (parsePath parentStr) (submoduleMsg (basename root) msg)) :=
        opsBound1 (ops_of_commitM _ _) _
      have h4 : OpsBound isCommitInvocation 1
          (mbind (commitM (parsePath parentStr) (submoduleMsg (basename root) msg)) (fun _ =>
            emit (.committedSubmodule (basename root) parentStr))) :=
        opsBound_mono (opsBound_mbind hcm (fun _ => opsBound_emit _ _)) (by omega)
      have h3 : OpsBound isCommitInvocation 1
          (mbind (emit (.stagedSubmodule (basename root))) (fun _ =>
            mbind (commitM (parsePath parentStr) (submoduleMsg (basename root) msg)) (fun _ =>
              emit (.committedSubmodule (basename root) parentStr)))) :=
        opsBound_mono (opsBound_mbind (opsBound_emit _ _) (fun _ => h4)) (by omega)
      have h2 : OpsBound isCommitInvocation 1
          (mbind (addM (parsePath parentStr) [basename root]) (fun _ =>
            mbind (emit (.stagedSubmodule (basename root))) (fun _ =>
              mbind (commitM (parsePath parentStr) (submoduleMsg (basename root) msg)) (fun _ =>
                emit (.committedSubmodule (basename root) parentStr))))) :=
        opsBound_mono (opsBound_mbind hadd (fun _ => h3)) (by omega)
      exact opsBound_mono (opsBound_mbind (opsBound_emit _ _) (fun _ => h2)) (by omega)
  exact opsBound_mono (opsBound_mbind (cmBound_isSubmodule root) hg) (by omega)

theorem cmBound_ensureBranch (root : DirPath) (b : String) :
    OpsBound isCommitInvocation 0 (ensureBranch root b) := by
  unfold ensureBranch
  have hrh : OpsBound isCommitInvocation 0 (revparseHeadM root) :=
    opsBound0 (ops_of_revparseHeadM root) rfl
  have hco : OpsBound isCommitInvocation 0 (checkoutM root b) :=
    opsBound0 (ops_of_checkoutM root b) rfl
  have hcn : OpsBound isCommitInvocation 0 (checkoutNewM root b) :=
    opsBound0 (ops_of_checkoutNewM root b) rfl
  have hg : ∀ cur : Option String,
      OpsBound isCommitInvocation 0
        (match cur with
         | none =>
           jsTry (mbind (checkoutM root b) (fun _ => emit (.checkedOut b root)))
             (fun _ => mbind (checkoutNewM root b) (fun _ => emit (.createdBranch b root)))
         | some _ => pureM ()) := by
    intro cur
    cases cur with
    | none =>
      have hx : OpsBound isCommitInvocation 0
          (mbind (checkoutM root b) (fun _ => emit (.checkedOut b root))) :=
        opsBound_mono (opsBound_mbind hco (fun _ => opsBound_emit _ _)) (by omega)
      have hy : ∀ e : String, OpsBound isCommitInvocation 0
          (mbind (checkoutNewM root b) (fun _ => emit (.createdBranch b root))) :=
        fun _ => opsBound_mono (opsBound_mbind hcn (fun _ => opsBound_emit _ _)) (by omega)
      exact opsBound_mono (opsBound_jsTry hx hy) (by omega)
    | some br => exact opsBound_pureM _ _
  exact opsBound_mono (opsBound_mbind hrh hg) (by omega)

theorem sqBound_afterBranch (root rel : DirPath) (msg : String) :
    OpsBound isSuperQueryOp 1 (afterBranch root rel msg) := by
  unfold afterBranch
  have hadd : OpsBound isSuperQueryOp 0 (addM root rel) :=
    opsBound0 (ops_of_addM _ _) rfl
  have hcm : OpsBound isSuperQueryOp 0 (commitM root msg) :=
    opsBound0 (ops_of_commitM _ _) rfl
  have h4 : OpsBound isSuperQueryOp 1
      (mbind (emit (.committed msg root)) (fun _ => superPart root msg)) :=
    opsBound_mono (opsBound_mbind (opsBound_emit _ _) (fun _ => sqBound_superPart root msg))
      (by omega)
  have h3 : OpsBound isSuperQueryOp 1
      (mbind (commitM root msg) (fun _ =>
        mbind (emit (.committed msg root)) (fun _ => superPart root msg))) :=
    opsBound_mono (opsBound_mbind hcm (fun _ => h4)) (by omega)
  have h2 : OpsBound isSuperQueryOp 1
      (mbind (emit .stagedCurrent) (fun _ =>
        mbind (commitM root msg) (fun _ =>
          mbind (emit (.committed msg root)) (fun _ => superPart root msg)))) :=
    opsBound_mono (opsBound_mbind (opsBound_emit _ _) (fun _ => h3)) (by omega)
  exact opsBound_mono (opsBound_mbind hadd (fun _ => h2)) (by omega)

theorem cmBound_afterBranch (root rel : DirPath) (msg : String) :
    OpsBound isCommitInvocation 2 (afterBranch root rel msg) := by
  unfold afterBranch
  have hadd : OpsBound isCommitInvocation 0 (addM root rel) :=
    opsBound0 (ops_of_addM _ _) rfl
  have hcm : OpsBound isCommitInvocation 1 (commitM root msg) :=
    opsBound1 (ops_of_commitM _ _) _
  have h4 : OpsBound isCommitInvocation 1
      (mbind (emit (.committed msg root)) (fun _ => superPart root msg)) :=
    opsBound_mono (opsBound_mbind (opsBound_emit _ _) (fun _ => cmBound_superPart root msg))
      (by omega)
  have h3 : OpsBound isCommitInvocation 2
      (mbind (commitM root msg) (fun _ =>
        mbind (emit (.committed msg root)) (fun _ => superPart root msg))) :=
    opsBound_mono (opsBound_mbind hcm (fun _ => h4)) (by omega)
  have h2 : OpsBound isCommitInvocation 2
      (mbind (emit .stagedCurrent) (fun _ =>
        mbind (commitM root msg) (fun _ =>
          mbind (emit (.committed msg root)) (fun _ => superPart root msg)))) :=
    opsBound_mono (opsBound_mbind (opsBound_emit _ _) (fun _ => h3)) (by omega)
  exact opsBound_mono (opsBound_mbind hadd (fun _ => h2)) (by omega)

/-- C6: per invocation the Propagator queries for a superproject at most
once (it never asks whether the detected superproject itself has a
further superproject) and issues at most two commit invocations, so at
most two repositories are committed to — propagation cascades at most
one level, in every world. -/
theorem propagation_depth_bounded (w : World) (p : DirPath) (m b : String) :
    ((commitChanges p m b) (initSt w)).1.ops.countP isSuperQueryOp ≤ 1 ∧
    ((commitChanges p m b) (initSt w)).1.ops.countP isCommitInvocation ≤ 2 := by
  have hrev1 : OpsBound isSuperQueryOp 0 (revparseToplevelM p) :=
    opsBound0 (ops_of_revparseToplevelM p) rfl
  have hrev2 : OpsBound isCommitInvocation 0 (revparseToplevelM p) :=
    opsBound0 (ops_of_revparseToplevelM p) rfl
  have hin1 : ∀ repoRoot : DirPath, OpsBound isSuperQueryOp 1
      (mbind (ensureBranch repoRoot b) (fun _ =>
        afterBranch repoRoot (relPath repoRoot p) m)) :=
    fun repoRoot => opsBound_mono
      (opsBound_mbind (sqBound_ensureBranch repoRoot b)
        (fun _ => sqBound_afterBranch repoRoot (relPath repoRoot p) m)) (by omega)
  have hin2 : ∀ repoRoot : DirPath, OpsBound isCommitInvocation 2
      (mbind (ensureBranch repoRoot b) (fun _ =>
        afterBranch repoRoot (relPath repoRoot p) m)) :=
    fun repoRoot => opsBound_mono
      (opsBound_mbind (cmBound_ensureBranch repoRoot b)
        (fun _ => cmBound_afterBranch repoRoot (relPath repoRoot p) m)) (by omega)
  have hbody1 : OpsBound isSuperQueryOp 1 (commitChangesBody p m b) := by
    unfold commitChangesBody
    exact opsBound_mono (opsBound_mbind hrev1 hin1) (by omega)
  have hbody2 : OpsBound isCommitInvocation 2 (commitChangesBody p m b) := by
    unfold commitChangesBody
    exact opsBound_mono (opsBound_mbind hrev2 hin2) (by omega)
  have hcc1 : OpsBound isSuperQueryOp 1 (commitChanges p m b) := by
    unfold commitChanges
    exact opsBound_mono (opsBound_jsTry hbody1 (fun e => opsBound_emit _ _)) (by omega)
  have hcc2 : OpsBound isCommitInvocation 2 (commitChanges p m b) := by
    unfold commitChanges
    exact opsBound_mono (opsBound_jsTry hbody2 (fun e => opsBound_emit _ _)) (by omega)
  have k1 := hcc1 (initSt w)
  have k2 := hcc2 (initSt w)
  simp only [initSt, List.countP_nil] at k1 k2 ⊢
  exact ⟨by omega, by omega⟩

theorem digitChar_inj : ∀ a < 10, ∀ b < 10, digitChar a = digitChar b → a = b := by decide

theorem map_digitChar_inj : ∀ (l1 l2 : List Nat), (∀ x ∈ l1, x < 10) → (∀ x ∈ l2, x < 10) →
    l1.map digitChar = l2.map digitChar → l1 = l2 := by
  intro l1
  induction l1 with
  | nil =>
    intro l2 _ _ h
    cases l2 with
    | nil => rfl
    | cons b bs => simp at h
  | cons a as ih =>
    intro l2 h1 h2 h
    cases l2 with
    | nil => simp at h
    | cons b bs =>
      simp only [List.map_cons, List.cons.injEq] at h
      have ha : a < 10 := h1 a (by simp)
      have hb : b < 10 := h2 b (by simp)
      have hab := digitChar_inj a ha b hb h.1
      have hrest := ih bs (fun x hx => h1 x (by simp [hx])) (fun x hx => h2 x (by simp [hx])) h.2
      rw [hab, hrest]

theorem natReprAux_eq_digits : ∀ (f n : Nat) (acc : List Char), 0 < n → n < 10 ^ f →
    natReprAux f n acc = ((Nat.digits 10 n).reverse.map digitChar) ++ acc := by
  intro f
  induction f with
  | zero =>
    intro n acc hn hf
    simp at hf
    omega
  | succ f ih =>
    intro n acc hn hf
    by_cases h10 : n < 10
    · rw [natReprAux, if_pos h10]
      rw [Nat.digits_of_lt 10 n (by omega) h10]
      simp [Nat.mod_eq_of_lt h10]
    · rw [natReprAux, if_neg h10]
      have hd : 0 < n / 10 := Nat.div_pos (by omega) (by norm_num)
      have hlt : n / 10 < 10 ^ f := by
        rw [Nat.div_lt_iff_lt_mul (by norm_num : (0:ℕ) < 10)]
        calc n < 10 ^ (f + 1) := hf
        _ = 10 ^ f * 10 := by rw [Nat.pow_succ]
      rw [ih (n / 10) (digitChar (n % 10) :: acc) hd hlt]
      rw [Nat.digits_def' (by norm_num : (1:ℕ) < 10) hn]
      simp

theorem natRepr_eq_digits (n : Nat) (hn : 0 < n) :
    natRepr n = ⟨((Nat.digits 10 n).reverse.map digitChar)⟩ := by
  unfold natRepr
  rw [natReprAux_eq_digits (n + 1) n [] hn
    (lt_trans (Nat.lt_pow_self (by norm_num) n)
      (Nat.pow_lt_pow_right (by norm_num) (Nat.lt_succ_self n)))]
  simp

theorem natRepr_inj_pos (a b : Nat) (ha : 0 < a) (hb : 0 < b)
    (h : natRepr a = natRepr b) : a = b := by
  rw [natRepr_eq_digits a ha, natRepr_eq_digits b hb] at h
  have hdata : ((Nat.digits 10 a).reverse.map digitChar)
      = ((Nat.digits 10 b).reverse.map digitChar) := congrArg String.data h
  have hrev : (Nat.digits 10 a).reverse = (Nat.digits 10 b).reverse :=
    map_digitChar_inj _ _
      (fun x hx => Nat.digits_lt_base (by norm_num) (List.mem_reverse.mp hx))
      (fun x hx => Nat.digits_lt_base (by norm_num) (List.mem_reverse.mp hx)) hdata
  have hdig : Nat.digits 10 a = Nat.digits 10 b := List.reverse_injective hrev
  have := congrArg (Nat.ofDigits 10) hdig
  rwa [Nat.ofDigits_digits, Nat.ofDigits_digits] at this

theorem natRepr_pos_length (n : Nat) (hn : 0 < n) : 0 < (natRepr n).length := by
  rw [natRepr_eq_digits n hn]
  show 0 < (List.map digitChar (Nat.digits 10 n).reverse).length
  have hne : Nat.digits 10 n ≠ [] := Nat.digits_ne_nil_iff_ne_zero.mpr (by omega)
  simpa using List.length_pos.mpr hne

theorem candName_inj (base : String) : ∀ a b : Nat, candName base a = candName base b → a = b := by
  have hlen : ∀ k : Nat, (candName base (k + 1)).length = base.length + 1 + (natRepr (k + 1)).length := by
    intro k
    show ((base ++ "-") ++ natRepr (k + 1)).length = base.length + 1 + (natRepr (k + 1)).length
    rw [String.length_append, String.length_append]
    rfl
  intro a b h
  match a, b with
  | 0, 0 => rfl
  | 0, k + 1 =>
    exfalso
    have hl := congrArg String.length h
    rw [hlen k] at hl
    have := natRepr_pos_length (k + 1) (Nat.succ_pos k)
    simp [candName] at hl
    omega
  | k + 1, 0 =>
    exfalso
    have hl := congrArg String.length h
    rw [hlen k] at hl
    have := natRepr_pos_length (k + 1) (Nat.succ_pos k)
    simp [candName] at hl
    omega
  | a + 1, b + 1 =>
    have hd := congrArg String.data h
    have hd2 : ((base ++ "-") ++ natRepr (a + 1)).data = ((base ++ "-") ++ natRepr (b + 1)).data := hd
    rw [String.data_append, String.data_append] at hd2
    have h2 : (natRepr (a + 1)).data = (natRepr (b + 1)).data := List.append_cancel_left hd2
    have h3 : natRepr (a + 1) = natRepr (b + 1) := String.ext h2
    have := natRepr_inj_pos _ _ (Nat.succ_pos a) (Nat.succ_pos b) h3
    omega

theorem exists_fresh_candidate (base : String) (exs : List String) :
    ∃ j, j ≤ exs.length ∧ candName base j ∉ exs := by
  by_contra hcon
  push_neg at hcon
  have hmap : ∀ j ∈ Finset.range (exs.length + 1), candName base j ∈ exs.toFinset := by
    intro j hj
    rw [List.mem_toFinset]
    exact hcon j (Nat.lt_succ_iff.mp (Finset.mem_range.mp hj))
  have hinj : Set.InjOn (candName base) (Finset.range (exs.length + 1)) := by
    intro x _ y _ hxy
    exact candName_inj base x y hxy
  have hcard := Finset.card_le_card_of_injOn (candName base) hmap hinj
  rw [Finset.card_range] at hcard
  have hle := exs.toFinset_card_le
  omega

theorem nextNameAux_spec (ex : String → Bool) (base : String) :
    ∀ (fuel k j : Nat), (∀ i, i < j → ex (candName base (k + i)) = true) →
      ex (candName base (k + j)) = false → j ≤ fuel →
      nextNameAux ex base fuel k = candName base (k + j) := by
  intro fuel
  induction fuel with
  | zero =>
    intro k j hmin hj hle
    have hz : j = 0 := Nat.le_zero.mp hle
    subst hz
    rw [nextNameAux, Nat.add_zero]
  | succ fuel ih =>
    intro k j hmin hj hle
    cases j with
    | zero =>
      rw [Nat.add_zero] at hj
      rw [nextNameAux, hj]
      simp
    | succ j =>
      rw [nextNameAux]
      have h0 : ex (candName base k) = true := by
        have := hmin 0 (Nat.succ_pos j)
        rwa [Nat.add_zero] at this
      rw [h0]
      simp only [if_true]
      have hres := ih (k + 1) j
        (fun i hi => by
          have := hmin (i + 1) (by omega)
          rwa [show k + (i + 1) = k + 1 + i by omega] at this)
        (by rwa [show k + (j + 1) = k + 1 + j by omega] at hj)
        (by omega)
      rwa [show k + 1 + j = k + (j + 1) by omega] at hres

/-- C9: the collision-avoiding name routine returns the base name itself
when it is unused, and otherwise `base-k` for the smallest counter
`k ≥ 1` whose candidate is unused; the returned name is never a member
of the existing-name set. -/
theorem nextAvailableName_spec (base : String) (exs : List String) :
    (base ∉ exs → nextAvailableName base exs = base) ∧
    (base ∈ exs → ∃ k, 1 ≤ k ∧ nextAvailableName base exs = candName base k ∧
      candName base k ∉ exs ∧ ∀ i, 1 ≤ i → i < k → candName base i ∈ exs) ∧
    nextAvailableName base exs ∉ exs := by
  have hex : ∃ j, decide (candName base j ∈ exs) = false := by
    obtain ⟨j, _, hj⟩ := exists_fresh_candidate base exs
    exact ⟨j, by simpa using hj⟩
  obtain ⟨jw, hjwle, hjw⟩ := exists_fresh_candidate base exs
  have hfind_le : Nat.find hex ≤ jw := Nat.find_le (by simpa using hjw)
  have hrun : nextAvailableName base exs = candName base (Nat.find hex) := by
    unfold nextAvailableName
    have hres := nextNameAux_spec (fun n => decide (n ∈ exs)) base (exs.length + 1) 0
      (Nat.find hex)
      (fun i hi => by
        have hni := Nat.find_min hex hi
        rw [Nat.zero_add]
        simpa using hni)
      (by rw [Nat.zero_add]; exact Nat.find_spec hex)
      (by omega)
    simpa using hres
  have hnotin : candName base (Nat.find hex) ∉ exs := by
    have := Nat.find_spec hex
    simpa using this
  refine ⟨?_, ?_, ?_⟩
  · intro hbase
    have h0 : decide (candName base 0 ∈ exs) = false := by
      simp [candName, hbase]
    have hz : Nat.find hex = 0 := (Nat.find_eq_zero hex).mpr h0
    rw [hrun, hz]
    rfl
  · intro hbase
    refine ⟨Nat.find hex, ?_, by rw [hrun], hnotin, ?_⟩
    · rcases Nat.eq_zero_or_pos (Nat.find hex) with h0 | h0
      · exfalso
        have hsp := hnotin
        rw [h0] at hsp
        exact hsp hbase
      · omega
    · intro i h1 hi
      have hni := Nat.find_min hex hi
      simpa using hni
  · rw [hrun]
    exact hnotin

/-- C9 witness: with `a` and `a-1` taken, the routine yields a name that
is not a member of the existing set. -/
theorem nextAvailableName_spec_witness :
    nextAvailableName "a" ["a", "a-1"] ∉ ["a", "a-1"] :=
  (nextAvailableName_spec "a" ["a", "a-1"]).2.2
